import Mathlib

/-!
Verification of the contact-form submission pipeline of `src/script.js`
(field normalizer, validator, local submission store, feedback toast and
submit handler). Machine strings are modelled as Lean `String`, JS objects
built by repeated property assignment as association lists with
overwrite-in-place semantics, and the browser's localStorage cell for the
fixed key `codlab_contacts_v1` as an abstract stored value (absent,
corrupt, or a deserialized list of records).
-/

/-- The ECMAScript `\s` character class (whitespace and line terminators),
as used by the email regular expression in `script.js`; the same set is
removed from both ends by `String.prototype.trim`. -/
def jsSpace (c : Char) : Bool :=
  c = ' ' || c = '\t' || c = '\n' || c = '\r' || c = '\u000b' || c = '\u000c' ||
  c = ' ' || c = ' ' || (' ' ≤ c && c ≤ ' ') ||
  c = ' ' || c = ' ' || c = ' ' || c = ' ' ||
  c = '　' || c = '﻿'

/-- `v.trim()` as applied to every FormData value in the submit handler:
strip leading and trailing ECMAScript whitespace. -/
def jsTrim (s : String) : String :=
  ⟨(((s.data.dropWhile jsSpace).reverse.dropWhile jsSpace).reverse : List Char)⟩

/-- A character admitted by the regex character class `[^\s@]`. -/
def okChar (c : Char) : Bool := !(jsSpace c) && c != '@'

/-- `/^[^\s@]+@[^\s@]+\.[^\s@]+$/.test s` from the validation block of
`script.js`. Since `[^\s@]` excludes `@`, a match forces exactly one `@`;
the domain part must contain a `.` that is neither its first nor its last
character (the `.` itself lies in `[^\s@]`, so further dots are allowed). -/
def testEmail (s : String) : Bool :=
  match s.data.splitOn '@' with
  | [a, b] =>
    !a.isEmpty && a.all okChar && b.all okChar &&
    (b.dropLast.drop 1).contains '.'
  | _ => false

/-! ### JS objects as association lists

The handler builds `obj` by `obj[k] = v.trim()` over the FormData entries
and the stored entry by `Object.assign({submittedAt: ...}, obj)`. A JS
property write keeps an existing key at its position and overwrites its
value, and appends a fresh key at the end; property reads find the unique
occurrence of the key. -/

/-- Property read `m[k]` (`none` models `undefined`). -/
def getVal : List (String × String) → String → Option String
  | [], _ => none
  | (k', v) :: m, k => if k' = k then some v else getVal m k

/-- Property read defaulted to the empty string: for every check the
handler performs, `undefined` and `""` behave the same way (both falsy,
`""` fails the regex and every minimum-length test). -/
def getStr (m : List (String × String)) (k : String) : String :=
  (getVal m k).getD ""

/-- Property write `m[k] = v`. -/
def setKey : List (String × String) → String → String → List (String × String)
  | [], k, v => [(k, v)]
  | (k', v') :: m, k, v =>
    if k' = k then (k', v) :: m else (k', v') :: setKey m k v

/-- `Object.assign(base, ps)`: copy the pairs of `ps` into `base` in
order. -/
def objAssign (base ps : List (String × String)) : List (String × String) :=
  ps.foldl (fun m p => setKey m p.1 p.2) base

/-- `const obj = {}; for (const [k,v] of entries) obj[k] = v;`. -/
def objOfEntries (ps : List (String × String)) : List (String × String) :=
  objAssign [] ps

/-- `v.trim()` applied to each FormData value (`obj[k] = v.trim()`). -/
def trimValues (ps : List (String × String)) : List (String × String) :=
  ps.map fun p => (p.1, jsTrim p.2)

/-! ### Validator (`script.js` lines 333–337) -/

def nameMsg : String := "Nama wajib diisi."

def emailMsg : String := "Email tidak valid."

def phoneMsg : String := "Nomor telepon tampak terlalu pendek."

def messageMsg : String := "Pesan minimal 10 karakter."

/-- The four `errors.push` checks, in source order. `!obj.x` is string
falsiness, i.e. the value is absent or `""` (modelled by `getStr _ _ = ""`);
`.length` is string length. -/
def validate (obj : List (String × String)) : List String :=
  (if getStr obj "name" = "" then [nameMsg] else []) ++
  (if getStr obj "email" = "" ∨ testEmail (getStr obj "email") = false
    then [emailMsg] else []) ++
  (if getStr obj "phone" = "" ∨ (getStr obj "phone").length < 6
    then [phoneMsg] else []) ++
  (if getStr obj "message" = "" ∨ (getStr obj "message").length < 10
    then [messageMsg] else [])

/-! ### Field normalizer (`script.js` lines 312–315) -/

inductive StoredVal
  | absent
  | corrupt
  | records (l : List (List (String × String)))
deriving DecidableEq

/-- One run of the `try` block with a validated `entry`: parse the stored
sequence (absent ↦ `[]`), `push` the entry, write back. A corrupt cell
makes `JSON.parse` (or `push`) throw, so the `catch` is reached before any
write and the cell is left untouched. No error propagates to the caller. -/
def appendStore (r : List (String × String)) : StoredVal → StoredVal
  | StoredVal.absent => StoredVal.records [r]
  | StoredVal.corrupt => StoredVal.corrupt
  | StoredVal.records l => StoredVal.records (l ++ [r])

/-- The stored ordered sequence an external reader deserializes (empty
when the cell is absent; a corrupt cell has no deserialized sequence and
is read as empty). -/
def readRecords : StoredVal → List (List (String × String))
  | StoredVal.records l => l
  | _ => []

def storageLen (s : StoredVal) : Nat := (readRecords s).length

/-- `Object.assign({ submittedAt: new Date().toISOString() }, obj)`. -/
def mkEntry (ts : String) (obj : List (String × String)) :
    List (String × String) :=
  objAssign [("submittedAt", ts)] obj

/-- Append a session's submissions in order; each pair is the wall-clock
reading at that append and the field map being persisted. -/
def appendAll (l : List (String × List (String × String))) (s : StoredVal) :
    StoredVal :=
  l.foldl (fun s p => appendStore (mkEntry p.1 p.2) s) s

/-! ### Feedback toast and submit handler (`script.js` lines 326–369) -/

inductive Toast
  | hidden
  | shown (isError : Bool) (text : String)
deriving DecidableEq

def successMsg : String :=
  "Terima kasih! Pesanmu telah tersimpan. Tim kami akan menghubungi segera."

/-- The form's observable state: current input values by name (in DOM
order), the localStorage cell, and the toast region. -/
structure FormState where
  fields : List (String × String)
  storage : StoredVal
  toast : Toast
deriving DecidableEq

/-- The `obj` the handler builds from `new FormData(form)`: each entry's
value trimmed, then assigned key by key. -/
def formObj (st : FormState) : List (String × String) :=
  objOfEntries (trimValues st.fields)

/-- One submit event. `ts` is `new Date().toISOString()`; `setItemOk` is
false when `localStorage.setItem` throws (quota/unavailability), which the
`catch` swallows. Returns the new state and whether `e.preventDefault()`
was called. On rejection the toast shows `'Gagal kirim: ' +
errors.join(' ')`; on acceptance the entry is appended, the success toast
shown and `form.reset()` restores every input to its (empty) default. -/
def submit (ts : String) (setItemOk : Bool) (st : FormState) :
    FormState × Bool :=
  let obj := formObj st
  let errors := validate obj
  if errors = [] then
    let storage' :=
      if setItemOk then appendStore (mkEntry ts obj) st.storage else st.storage
    ({ fields := st.fields.map fun p => (p.1, ""),
       storage := storage',
       toast := Toast.shown false successMsg }, true)
  else
    ({ st with
       toast := Toast.shown true ("Gagal kirim: " ++ String.intercalate " " errors) },
     true)

/-! ### Association-list lemmas -/

theorem getVal_setKey_self (m : List (String × String)) (k v : String) :
    getVal (setKey m k v) k = some v := by
  induction m with
  | nil => simp [setKey, getVal]
  | cons q m ih =>
    by_cases hq : q.1 = k
    · simp [setKey, hq, getVal]
    · simp [setKey, hq, getVal, ih]

theorem getVal_setKey_ne (m : List (String × String)) (k v k' : String)
    (h : k' ≠ k) : getVal (setKey m k v) k' = getVal m k' := by
  induction m with
  | nil => simp [setKey, getVal, Ne.symm h]
  | cons q m ih =>
    by_cases hq : q.1 = k
    · simp [setKey, hq, getVal, Ne.symm h]
    · simp [setKey, hq, getVal, ih]

theorem getStr_setKey_ne (m : List (String × String)) (k v k' : String)
    (h : k' ≠ k) : getStr (setKey m k v) k' = getStr m k' := by
  simp [getStr, getVal_setKey_ne m k v k' h]

theorem setKey_of_notMem (m : List (String × String)) (k v : String)
    (h : ∀ q ∈ m, q.1 ≠ k) : setKey m k v = m ++ [(k, v)] := by
  induction m with
  | nil => simp [setKey]
  | cons q m ih =>
    have hq : q.1 ≠ k := h q (by simp)
    simp only [setKey, if_neg hq, List.cons_append, List.cons.injEq, true_and]
    exact ih fun q' hq' => h q' (by simp [hq'])

theorem getVal_objAssign_of_notMem (ps : List (String × String)) :
    ∀ (base : List (String × String)) (k : String), (∀ q ∈ ps, q.1 ≠ k) →
      getVal (objAssign base ps) k = getVal base k := by
  induction ps with
  | nil => intro base k _; rfl
  | cons q ps ih =>
    intro base k h
    have : objAssign base (q :: ps) = objAssign (setKey base q.1 q.2) ps := rfl
    rw [this, ih _ k fun q' hq' => h q' (by simp [hq'])]
    exact getVal_setKey_ne base q.1 q.2 k fun hk => h q (by simp) hk.symm

theorem getVal_objAssign_of_nodup (ps : List (String × String)) :
    ∀ (base : List (String × String)) (k w : String),
      (ps.map Prod.fst).Nodup → getVal ps k = some w →
      getVal (objAssign base ps) k = some w := by
  induction ps with
  | nil => intro _ _ _ _ h; simp [getVal] at h
  | cons q ps ih =>
    intro base k w hnd hget
    rw [List.map_cons, List.nodup_cons] at hnd
    have hstep : objAssign base (q :: ps) = objAssign (setKey base q.1 q.2) ps := rfl
    by_cases hq : q.1 = k
    · have hw : w = q.2 := by
        simp [getVal, hq] at hget; exact hget.symm
      subst hw
      rw [hstep, getVal_objAssign_of_notMem ps _ k ?_]
      · rw [← hq]; exact getVal_setKey_self base q.1 q.2
      · intro q' hq' hk
        exact hnd.1 (hq ▸ hk ▸ List.mem_map_of_mem Prod.fst hq')
    · have hget' : getVal ps k = some w := by
        simpa [getVal, hq] using hget
      rw [hstep]
      exact ih _ k w hnd.2 hget'

theorem objAssign_of_disjoint (ps : List (String × String)) :
    ∀ base : List (String × String), (ps.map Prod.fst).Nodup →
      (∀ k ∈ ps.map Prod.fst, ∀ q ∈ base, q.1 ≠ k) →
      objAssign base ps = base ++ ps := by
  induction ps with
  | nil => intro base _ _; simp [objAssign]
  | cons q ps ih =>
    intro base hnd hdisj
    rw [List.map_cons, List.nodup_cons] at hnd
    have hstep : objAssign base (q :: ps) = objAssign (setKey base q.1 q.2) ps := rfl
    have hset : setKey base q.1 q.2 = base ++ [q] := by
      exact setKey_of_notMem base q.1 q.2
        (fun q' hq' => hdisj q.1 (by simp) q' hq')
    have hdisj' : ∀ k ∈ ps.map Prod.fst, ∀ q' ∈ base ++ [q], q'.1 ≠ k := by
      intro k hk q' hq'
      rcases List.mem_append.mp hq' with hmem | hmem
      · exact hdisj k (by simp [hk]) q' hmem
      · have hq'q : q' = q := by simpa using hmem
        subst hq'q
        intro hcontra
        exact hnd.1 (hcontra ▸ hk)
    rw [hstep, hset, ih (base ++ [q]) hnd.2 hdisj']
    simp

theorem objOfEntries_of_nodup (ps : List (String × String))
    (hnd : (ps.map Prod.fst).Nodup) : objOfEntries ps = ps := by
  have := objAssign_of_disjoint ps [] hnd (by simp)
  simpa [objOfEntries] using this

theorem getVal_trimValues (ps : List (String × String)) (k : String) :
    getVal (trimValues ps) k = (getVal ps k).map jsTrim := by
  induction ps with
  | nil => simp [trimValues, getVal]
  | cons q ps ih =>
    simp only [trimValues] at ih ⊢
    rw [List.map_cons]
    by_cases hq : q.1 = k
    · simp [getVal, hq]
    · simp [getVal, hq, ih]

theorem keys_trimValues (ps : List (String × String)) :
    (trimValues ps).map Prod.fst = ps.map Prod.fst := by
  simp only [trimValues, List.map_map]
  rfl

/-! ### Store lemmas -/

theorem appendAll_records (l : List (String × List (String × String))) :
    ∀ init, appendAll l (StoredVal.records init) =
      StoredVal.records (init ++ l.map fun p => mkEntry p.1 p.2) := by
  induction l with
  | nil => intro init; simp [appendAll]
  | cons p l ih =>
    intro init
    have hstep : appendAll (p :: l) (StoredVal.records init) =
        appendAll l (appendStore (mkEntry p.1 p.2) (StoredVal.records init)) := rfl
    rw [hstep]
    show appendAll l (StoredVal.records (init ++ [mkEntry p.1 p.2])) = _
    rw [ih]
    simp [appendStore]

theorem readRecords_appendAll_absent
    (l : List (String × List (String × String))) :
    readRecords (appendAll l StoredVal.absent) =
      l.map fun p => mkEntry p.1 p.2 := by
  cases l with
  | nil => rfl
  | cons p l =>
    have hstep : appendAll (p :: l) StoredVal.absent =
        appendAll l (StoredVal.records [mkEntry p.1 p.2]) := rfl
    rw [hstep, appendAll_records]
    simp [readRecords]

theorem mkEntry_eq_cons (ts : String) (obj : List (String × String))
    (hnd : (obj.map Prod.fst).Nodup) (hns : "submittedAt" ∉ obj.map Prod.fst) :
    mkEntry ts obj = ("submittedAt", ts) :: obj := by
  have hdisj : ∀ k ∈ obj.map Prod.fst, ∀ q ∈ [(("submittedAt" : String), ts)],
      q.1 ≠ k := by
    intro k hk q hq
    have hq' : q = ("submittedAt", ts) := by simpa using hq
    subst hq'
    intro hcontra
    have hcontra' : ("submittedAt" : String) = k := hcontra
    exact hns (hcontra' ▸ hk)
  have := objAssign_of_disjoint obj [("submittedAt", ts)] hnd hdisj
  simpa [mkEntry] using this

/-- Every record a session appends (from an empty cell) is its field map
prefixed by the `submittedAt` pair, provided the field map has no
duplicate keys and no key `submittedAt` of its own. -/
theorem readRecords_appendAll_eq (l : List (String × List (String × String)))
    (h : ∀ p ∈ l, ((p.2.map Prod.fst).Nodup ∧
      "submittedAt" ∉ p.2.map Prod.fst)) :
    readRecords (appendAll l StoredVal.absent) =
      l.map fun p => ("submittedAt", p.1) :: p.2 := by
  rw [readRecords_appendAll_absent]
  exact List.map_congr_left fun p hp =>
    mkEntry_eq_cons p.1 p.2 (h p hp).1 (h p hp).2

/-! ### Normalizer lemmas -/

theorem ite_singleton_sublist (c : Prop) [Decidable c] (x : String) :
    (if c then [x] else []).Sublist [x] := by
  by_cases h : c
  · rw [if_pos h]
  · rw [if_neg h]; exact List.nil_sublist _

/-- A fully valid field map, as scenario A of the specification submits
it (values already trimmed). -/
def exFields : List (String × String) :=
  [("name", "Ana"), ("email", "ana@mail.com"), ("phone", "08123456"),
    ("instagram", ""), ("message", "Halo, saya tertarik kursus ini.")]

/-! ### Claims about the Validator -/

/-- Claim C1: for every field map in which `name` is non-empty, `email`
passes the regex test, `phone` has length at least 6 and `message` has
length at least 10, the validation block produces an empty error list;
and the `instagram` field never affects the produced list. (The map is
the validator's input, i.e. the trimmed values the handler builds.) -/
theorem validator_accepts_all_valid (obj : List (String × String)) (v : String)
    (h1 : getStr obj "name" ≠ "")
    (h2 : testEmail (getStr obj "email") = true)
    (h3 : 6 ≤ (getStr obj "phone").length)
    (h4 : 10 ≤ (getStr obj "message").length) :
    validate obj = [] ∧
    validate (setKey obj "instagram" v) = validate obj := by
  have e2 : ¬ (getStr obj "email" = "" ∨
      testEmail (getStr obj "email") = false) := by
    rintro (he | he)
    · rw [he] at h2; exact absurd h2 (by decide)
    · rw [h2] at he; exact absurd he (by decide)
  have e3 : ¬ (getStr obj "phone" = "" ∨ (getStr obj "phone").length < 6) := by
    rintro (he | he)
    · rw [he] at h3; exact absurd h3 (by decide)
    · omega
  have e4 : ¬ (getStr obj "message" = "" ∨
      (getStr obj "message").length < 10) := by
    rintro (he | he)
    · rw [he] at h4; exact absurd h4 (by decide)
    · omega
  have g : ∀ k : String, k ≠ "instagram" →
      getStr (setKey obj "instagram" v) k = getStr obj k := fun k hk =>
    getStr_setKey_ne obj "instagram" v k hk
  constructor
  · simp only [validate, if_neg h1, if_neg e2, if_neg e3, if_neg e4,
      List.append_nil]
  · simp only [validate, g "name" (by decide), g "email" (by decide),
      g "phone" (by decide), g "message" (by decide)]

theorem validator_accepts_all_valid_witness :
    (getStr exFields "name" ≠ "" ∧
      testEmail (getStr exFields "email") = true ∧
      6 ≤ (getStr exFields "phone").length ∧
      10 ≤ (getStr exFields "message").length) ∧
    validate exFields = [] ∧
    validate (setKey exFields "instagram" "@ana") = validate exFields :=
  ⟨⟨by decide, by decide, by decide, by decide⟩,
    validator_accepts_all_valid exFields "@ana"
      (by decide) (by decide) (by decide) (by decide)⟩

/-- Claim C6, counterexample: the claim quotes the name-required message
as "Name is required", but the source emits the Indonesian message
`'Nama wajib diisi.'`; at a map with an empty `name` the returned list
does not contain "Name is required". -/
theorem name_required_msg_counterexample :
    getStr [("name", ""), ("email", "bad"), ("phone", "1"),
      ("message", "short")] "name" = "" ∧
    "Name is required" ∉ validate [("name", ""), ("email", "bad"),
      ("phone", "1"), ("message", "short")] := by
  decide

/-- Claim C6 (amended): for every field map whose `name` is empty, the
returned error list contains the name-required message the source
actually pushes, `'Nama wajib diisi.'`, regardless of the other fields. -/
theorem name_missing_emits_message (obj : List (String × String))
    (h : getStr obj "name" = "") : nameMsg ∈ validate obj := by
  simp [validate, h]

theorem name_missing_emits_message_witness :
    getStr [("name", ""), ("email", "bad"), ("phone", "1"),
      ("message", "short")] "name" = "" ∧
    nameMsg ∈ validate [("name", ""), ("email", "bad"), ("phone", "1"),
      ("message", "short")] :=
  ⟨by decide, name_missing_emits_message _ (by decide)⟩

/-- Claim C7: for every field map the error list is a subsequence of the
fixed ordered list of the four messages in field-check order (name,
email, phone, message); in particular, whenever two checks fail, the
earlier field's message precedes the later field's message. -/
theorem errors_in_field_order (obj : List (String × String)) :
    (validate obj).Sublist [nameMsg, emailMsg, phoneMsg, messageMsg] := by
  have hsplit : [nameMsg, emailMsg, phoneMsg, messageMsg] =
      [nameMsg] ++ [emailMsg] ++ [phoneMsg] ++ [messageMsg] := rfl
  rw [validate, hsplit]
  exact (((ite_singleton_sublist _ _).append
    (ite_singleton_sublist _ _)).append
    (ite_singleton_sublist _ _)).append
    (ite_singleton_sublist _ _)

/-! ### Claim about the field normalizer -/

/-- Claim C2: appending N validated records (each paired with its
wall-clock reading) to an empty cell and reading the stored sequence
back yields exactly N records, in append order, each equal to the field
map it was given plus the assigned `submittedAt` pair. -/
theorem store_roundtrip (l : List (String × List (String × String)))
    (h : ∀ p ∈ l, ((p.2.map Prod.fst).Nodup ∧
      "submittedAt" ∉ p.2.map Prod.fst)) :
    readRecords (appendAll l StoredVal.absent) =
      l.map (fun p => ("submittedAt", p.1) :: p.2) ∧
    (readRecords (appendAll l StoredVal.absent)).length = l.length := by
  have heq := readRecords_appendAll_eq l h
  exact ⟨heq, by rw [heq, List.length_map]⟩

theorem store_roundtrip_witness :
    (∀ p ∈ [(("2024-05-01T10:00:00.000Z" : String),
        [(("name" : String), ("Ana" : String)), ("email", "ana@mail.com")]),
      ("2024-05-01T10:05:00.000Z", [("name", "Budi")])],
      ((p.2.map Prod.fst).Nodup ∧ "submittedAt" ∉ p.2.map Prod.fst)) ∧
    readRecords (appendAll [("2024-05-01T10:00:00.000Z",
        [("name", "Ana"), ("email", "ana@mail.com")]),
      ("2024-05-01T10:05:00.000Z", [("name", "Budi")])] StoredVal.absent) =
      [[("submittedAt", "2024-05-01T10:00:00.000Z"), ("name", "Ana"),
        ("email", "ana@mail.com")],
       [("submittedAt", "2024-05-01T10:05:00.000Z"), ("name", "Budi")]] ∧
    (readRecords (appendAll [("2024-05-01T10:00:00.000Z",
        [("name", "Ana"), ("email", "ana@mail.com")]),
      ("2024-05-01T10:05:00.000Z", [("name", "Budi")])]
        StoredVal.absent)).length = 2 :=
  ⟨by decide, store_roundtrip _ (by decide)⟩

/-- Claim C3, counterexample: the claim says a corrupt (non-parseable)
stored value is treated as an empty sequence and the record is appended
to it and written back; in the source `JSON.parse` throws inside the
`try`, the `catch` swallows the error before `setItem` runs, so the cell
stays corrupt and no one-record sequence is written. -/
theorem append_corrupt_counterexample :
    appendStore [("name", "Ana")] StoredVal.corrupt = StoredVal.corrupt ∧
    appendStore [("name", "Ana")] StoredVal.corrupt ≠
      StoredVal.records [[("name", "Ana")]] := by
  decide

/-- Claim C3 (amended): `append` reads the cell under the fixed key and
never raises to its caller (it is a total function); an absent value is
treated as the empty sequence and the record list `[r]` is written back;
a stored list gets the record appended and written back; but a corrupt
value aborts the attempt and leaves the cell unchanged — it is a silent
no-op, not an append onto an empty sequence. -/
theorem append_contract (r : List (String × String))
    (l : List (List (String × String))) :
    appendStore r StoredVal.absent = StoredVal.records [r] ∧
    appendStore r StoredVal.corrupt = StoredVal.corrupt ∧
    appendStore r (StoredVal.records l) = StoredVal.records (l ++ [r]) :=
  ⟨rfl, rfl, rfl⟩

/-- Claim C9: within a session whose wall-clock readings are
non-decreasing, the `submittedAt` values of the stored records are
non-decreasing in storage order (each record's `submittedAt` is the
clock reading assigned at its append, provided the field map carries no
`submittedAt` field of its own). -/
theorem submittedAt_monotone (l : List (String × List (String × String)))
    (h : ∀ p ∈ l, ((p.2.map Prod.fst).Nodup ∧
      "submittedAt" ∉ p.2.map Prod.fst))
    (hc : l.Chain' (fun a b => a.1 ≤ b.1)) :
    ((readRecords (appendAll l StoredVal.absent)).map
      (fun e => getStr e "submittedAt")).Chain' (· ≤ ·) := by
  rw [readRecords_appendAll_eq l h, List.map_map]
  have hcomp : ((fun e => getStr e "submittedAt") ∘
      fun p : String × List (String × String) =>
        ("submittedAt", p.1) :: p.2) = fun p => p.1 := by
    funext p
    simp [getStr, getVal]
  rw [hcomp]
  exact (List.chain'_map _).mpr hc

theorem submittedAt_monotone_witness :
    ((∀ p ∈ [(("2024-05-01T10:00:00.000Z" : String),
        [(("name" : String), ("Ana" : String))]),
      ("2024-05-01T10:00:00.000Z", [("name", "Budi")])],
      ((p.2.map Prod.fst).Nodup ∧ "submittedAt" ∉ p.2.map Prod.fst)) ∧
      ([("2024-05-01T10:00:00.000Z", [("name", "Ana")]),
        ("2024-05-01T10:00:00.000Z", [("name", "Budi")])] :
          List (String × List (String × String))).Chain'
        (fun a b => a.1 ≤ b.1)) ∧
    ((readRecords (appendAll [("2024-05-01T10:00:00.000Z",
        [("name", "Ana")]),
      ("2024-05-01T10:00:00.000Z", [("name", "Budi")])]
        StoredVal.absent)).map
      (fun e => getStr e "submittedAt")).Chain' (· ≤ ·) :=
  ⟨⟨by decide, List.chain'_cons.mpr ⟨le_refl _, List.chain'_singleton _⟩⟩,
    submittedAt_monotone _ (by decide)
      (List.chain'_cons.mpr ⟨le_refl _, List.chain'_singleton _⟩)⟩

/-- Claim C10: if the submitted form has a field named exactly
`submittedAt`, the persisted entry's `submittedAt` is that field's
trimmed value — the user map is merged over the wall-clock default by
`Object.assign` — and in general the entry keeps every field of the map
(instagram and generated `fieldN` names included), not only the
validated ones. -/
theorem submittedAt_overridden_by_field (fields : List (String × String))
    (ts : String) (hnd : (fields.map Prod.fst).Nodup) :
    (∀ raw, getVal fields "submittedAt" = some raw →
      getVal (mkEntry ts (objOfEntries (trimValues fields))) "submittedAt" =
        some (jsTrim raw)) ∧
    ∀ k w, getVal fields k = some w →
      getVal (mkEntry ts (objOfEntries (trimValues fields))) k =
        some (jsTrim w) := by
  have hndT : ((trimValues fields).map Prod.fst).Nodup := by
    rw [keys_trimValues]; exact hnd
  have hobj : objOfEntries (trimValues fields) = trimValues fields :=
    objOfEntries_of_nodup _ hndT
  have main : ∀ k w, getVal fields k = some w →
      getVal (mkEntry ts (objOfEntries (trimValues fields))) k =
        some (jsTrim w) := by
    intro k w hw
    rw [hobj, mkEntry]
    apply getVal_objAssign_of_nodup _ _ _ _ hndT
    rw [getVal_trimValues, hw]
    rfl
  exact ⟨fun raw hmem => main "submittedAt" raw hmem, main⟩

theorem submittedAt_overridden_by_field_witness :
    (((([(("name" : String), ("Ana" : String)),
        ("submittedAt", " 1999-12-31T00:00:00.000Z ")]).map Prod.fst).Nodup ∧
      getVal [("name", "Ana"), ("submittedAt", " 1999-12-31T00:00:00.000Z ")]
        "submittedAt" = some " 1999-12-31T00:00:00.000Z ") ∧
    getVal (mkEntry "2024-05-01T10:00:00.000Z" (objOfEntries (trimValues
        [("name", "Ana"), ("submittedAt", " 1999-12-31T00:00:00.000Z ")])))
      "submittedAt" = some (jsTrim " 1999-12-31T00:00:00.000Z ")) ∧
    ((([(("name" : String), ("Ana" : String)), ("email", "ana@mail.com"),
        ("phone", "08123456"), ("instagram", "@ana"),
        ("message", "Halo, saya tertarik kursus ini."),
        ("field5", " extra ")]).map Prod.fst).Nodup ∧
      getVal [("name", "Ana"), ("email", "ana@mail.com"),
        ("phone", "08123456"), ("instagram", "@ana"),
        ("message", "Halo, saya tertarik kursus ini."),
        ("field5", " extra ")] "submittedAt" = none) ∧
    getVal (mkEntry "2024-05-01T10:00:00.000Z" (objOfEntries (trimValues
        [("name", "Ana"), ("email", "ana@mail.com"), ("phone", "08123456"),
          ("instagram", "@ana"),
          ("message", "Halo, saya tertarik kursus ini."),
          ("field5", " extra ")]))) "instagram" = some (jsTrim "@ana") ∧
    getVal (mkEntry "2024-05-01T10:00:00.000Z" (objOfEntries (trimValues
        [("name", "Ana"), ("email", "ana@mail.com"), ("phone", "08123456"),
          ("instagram", "@ana"),
          ("message", "Halo, saya tertarik kursus ini."),
          ("field5", " extra ")]))) "field5" = some (jsTrim " extra ") :=
  ⟨⟨⟨by decide, by decide⟩,
    (submittedAt_overridden_by_field
      [("name", "Ana"), ("submittedAt", " 1999-12-31T00:00:00.000Z ")]
      "2024-05-01T10:00:00.000Z" (by decide)).1
      " 1999-12-31T00:00:00.000Z " (by decide)⟩,
    ⟨by decide, by decide⟩,
    (submittedAt_overridden_by_field
      [("name", "Ana"), ("email", "ana@mail.com"), ("phone", "08123456"),
        ("instagram", "@ana"), ("message", "Halo, saya tertarik kursus ini."),
        ("field5", " extra ")]
      "2024-05-01T10:00:00.000Z" (by decide)).2 "instagram" "@ana" (by decide),
    (submittedAt_overridden_by_field
      [("name", "Ana"), ("email", "ana@mail.com"), ("phone", "08123456"),
        ("instagram", "@ana"), ("message", "Halo, saya tertarik kursus ini."),
        ("field5", " extra ")]
      "2024-05-01T10:00:00.000Z" (by decide)).2 "field5" " extra "
      (by decide)⟩

/-! ### Claims about the submit handler -/

/-- Claim C4: when validation passes but the storage write fails —
`setItem` throws, or the existing cell is corrupt so the `try` block
aborts — the success toast is still shown and the form is still reset,
while the stored sequence length does not increase; storage failure is a
silent no-op that never interrupts the user flow. -/
theorem storage_failure_still_success (st : FormState) (ts : String)
    (h : validate (formObj st) = []) :
    (submit ts false st).1.toast = Toast.shown false successMsg ∧
    (submit ts false st).1.fields = st.fields.map (fun p => (p.1, "")) ∧
    storageLen (submit ts false st).1.storage = storageLen st.storage ∧
    (submit ts true { st with storage := StoredVal.corrupt }).1.toast =
      Toast.shown false successMsg ∧
    storageLen (submit ts true
      { st with storage := StoredVal.corrupt }).1.storage =
      storageLen StoredVal.corrupt := by
  have h2 : validate (formObj { st with storage := StoredVal.corrupt }) = [] := by
    have hsame : formObj { st with storage := StoredVal.corrupt } =
      formObj st := rfl
    rw [hsame, h]
  refine ⟨?_, ?_, ?_, ?_, ?_⟩ <;>
    simp [submit, h, h2, storageLen, appendStore, readRecords]

theorem storage_failure_still_success_witness :
    validate (formObj ⟨exFields, StoredVal.records [], Toast.hidden⟩) = [] ∧
    (submit "2024-05-01T10:00:00.000Z" false
        ⟨exFields, StoredVal.records [], Toast.hidden⟩).1.toast =
      Toast.shown false successMsg ∧
    (submit "2024-05-01T10:00:00.000Z" false
        ⟨exFields, StoredVal.records [], Toast.hidden⟩).1.fields =
      exFields.map (fun p => (p.1, "")) ∧
    storageLen (submit "2024-05-01T10:00:00.000Z" false
        ⟨exFields, StoredVal.records [], Toast.hidden⟩).1.storage =
      storageLen (StoredVal.records []) ∧
    (submit "2024-05-01T10:00:00.000Z" true
        ⟨exFields, StoredVal.corrupt, Toast.hidden⟩).1.toast =
      Toast.shown false successMsg ∧
    storageLen (submit "2024-05-01T10:00:00.000Z" true
        ⟨exFields, StoredVal.corrupt, Toast.hidden⟩).1.storage =
      storageLen StoredVal.corrupt :=
  ⟨by decide, storage_failure_still_success
    ⟨exFields, StoredVal.records [], Toast.hidden⟩
    "2024-05-01T10:00:00.000Z" (by decide)⟩

/-- Claim C5: on a submit whose inputs fail validation, the handler
shows the error toast with the joined messages, appends nothing to the
store, leaves the form field contents unchanged and settles back (no
further transition happens in the handler); and every submit event,
whatever its outcome, calls `e.preventDefault()`. -/
theorem rejected_submit_frame (st : FormState) (ts : String) (ok : Bool)
    (h : validate (formObj st) ≠ []) :
    (submit ts ok st).1.toast = Toast.shown true
      ("Gagal kirim: " ++ String.intercalate " " (validate (formObj st))) ∧
    (submit ts ok st).1.storage = st.storage ∧
    (submit ts ok st).1.fields = st.fields ∧
    ∀ (st' : FormState) (ts' : String) (ok' : Bool),
      (submit ts' ok' st').2 = true := by
  refine ⟨?_, ?_, ?_, ?_⟩
  · simp [submit, h]
  · simp [submit, h]
  · simp [submit, h]
  · intro st' ts' ok'
    simp only [submit]
    split <;> rfl

theorem rejected_submit_frame_witness :
    validate (formObj ⟨[("name", ""), ("email", "bad"), ("phone", "1"),
      ("instagram", ""), ("message", "short")],
      StoredVal.records [], Toast.hidden⟩) ≠ [] ∧
    (submit "2024-05-01T10:00:00.000Z" true
        ⟨[("name", ""), ("email", "bad"), ("phone", "1"),
          ("instagram", ""), ("message", "short")],
          StoredVal.records [], Toast.hidden⟩).1.toast =
      Toast.shown true ("Gagal kirim: " ++ String.intercalate " "
        (validate (formObj ⟨[("name", ""), ("email", "bad"), ("phone", "1"),
          ("instagram", ""), ("message", "short")],
          StoredVal.records [], Toast.hidden⟩))) ∧
    (submit "2024-05-01T10:00:00.000Z" true
        ⟨[("name", ""), ("email", "bad"), ("phone", "1"),
          ("instagram", ""), ("message", "short")],
          StoredVal.records [], Toast.hidden⟩).1.storage =
      StoredVal.records [] ∧
    (submit "2024-05-01T10:00:00.000Z" true
        ⟨[("name", ""), ("email", "bad"), ("phone", "1"),
          ("instagram", ""), ("message", "short")],
          StoredVal.records [], Toast.hidden⟩).1.fields =
      [("name", ""), ("email", "bad"), ("phone", "1"),
        ("instagram", ""), ("message", "short")] ∧
    ∀ (st' : FormState) (ts' : String) (ok' : Bool),
      (submit ts' ok' st').2 = true :=
  ⟨by decide, rejected_submit_frame
    ⟨[("name", ""), ("email", "bad"), ("phone", "1"),
      ("instagram", ""), ("message", "short")],
      StoredVal.records [], Toast.hidden⟩
    "2024-05-01T10:00:00.000Z" true (by decide)⟩

/-- Scenario B of the specification: the all-invalid input yields the
four messages in field-check order. -/
theorem scenarioB_four_messages :
    validate [("name", ""), ("email", "bad"), ("phone", "1"),
      ("message", "short")] = [nameMsg, emailMsg, phoneMsg, messageMsg] := by
  decide
